import Mathlib

/-!
Shallow embedding of the VoltsTrack wallet-tracker bot (`bot.js`) and of the
parts of its streaming backend that the specification describes.

JS `Map`s are embedded as association lists in insertion order, JS `Set`s as
duplicate-free lists in insertion order.  The Telegram library calls
(`bot.sendMessage`) are represented by an outcome argument (`Except String Nat`:
the new message id on success, the error message on rejection); every attempted
send is recorded in the `sent` log.  Command handlers fire `sendAndTrackMessage`
without awaiting it, so the command embeddings record the attempted send in
`sent` and leave the asynchronous message-id bookkeeping to the separate
`sendAndTrackMessage` function, which is verified on its own.
-/

namespace VoltsTracker

/-- JS `Set.add`: append the element when absent, preserving insertion order. -/
def addElem (l : List String) (a : String) : List String :=
  if a ∈ l then l else l ++ [a]

/-- JS `Set.delete`: remove the element. -/
def removeElem : List String → String → List String
  | [], _ => []
  | b :: rest, a => if b = a then removeElem rest a else b :: removeElem rest a

/-- JS `Map.get` with a missing key read as the default value. -/
def getEntry {β : Type} (d : β) : List (Nat × β) → Nat → β
  | [], _ => d
  | p :: rest, c => if p.1 = c then p.2 else getEntry d rest c

/-- Overwrite the value stored under a key that is present in the map. -/
def mapEntry {β : Type} (m : List (Nat × β)) (c : Nat) (v : β) : List (Nat × β) :=
  m.map (fun p => if p.1 = c then (p.1, v) else p)

/-- JS `map.set(k, v)`: overwrite when present, append when absent. -/
def setEntry {β : Type} (m : List (Nat × β)) (c : Nat) (v : β) : List (Nat × β) :=
  if ∃ p ∈ m, p.1 = c then mapEntry m c v else m ++ [(c, v)]

/-- `if (!this.userWallets.has(chatId)) this.userWallets.set(chatId, new Set())` -/
def ensureEntry (m : List (Nat × List String)) (c : Nat) : List (Nat × List String) :=
  if ∃ p ∈ m, p.1 = c then m else m ++ [(c, [])]

/-- `MAX_MESSAGES_PER_USER = 50` (bot.js line 50). -/
def MAX_MESSAGES_PER_USER : Nat := 50

/-- The bot state: `this.userWallets`, the backend's tracked-wallet set
(`this.websocket.trackedWallets`, read through `addWallet`/`removeWallet` calls),
the backend connection flag, logs of the `addWallet`/`removeWallet` calls made,
the log of attempted Telegram sends, `this.botMessageIds`, and the error log. -/
structure BotState where
  userWallets : List (Nat × List String)
  engine : List String
  connected : Bool
  addCalls : List String
  removeCalls : List String
  sent : List (Nat × String)
  botMessageIds : List (Nat × List Nat)
  errorLog : List String
deriving Repr, DecidableEq

/-- `'❌ Invalid Solana wallet address. Please check and try again.'` -/
def invalidAddressMsg : String :=
  "❌ Invalid Solana wallet address. Please check and try again."

/-- The `⚠️ **Already Tracking**` reply of the `/track` handler. -/
def alreadyTrackingMsg (addr : String) : String :=
  "⚠️ **Already Tracking**\n\nYou are already tracking this wallet:\n`" ++ addr ++
    "`\n\nUse `/list` to see all your tracked wallets."

/-- The `🚫 **Wallet Limit Reached**` reply of the `/track` handler. -/
def walletLimitMsg (maxW : Nat) (set : List String) : String :=
  let walletsList := String.intercalate "\n"
    (set.enum.map (fun p => toString (p.1 + 1) ++ ". `" ++ p.2 ++ "`"))
  "🚫 **Wallet Limit Reached**\n\nYou have reached the maximum limit of **" ++
    toString maxW ++ " wallets**.\n\n**Your current tracked wallets:**\n" ++ walletsList ++
    "\n\nTo track a new wallet, you must first remove one using:\n`/untrack [wallet_address]`\n\nExample: `/untrack " ++
    set.headD "undefined" ++ "`"

/-- The `✅ **Wallet Added Successfully**` reply of the `/track` handler. -/
def trackConfirmMsg (maxW : Nat) (addr : String) (currentCount : Nat) : String :=
  let remainingSlots := maxW - currentCount
  "✅ **Wallet Added Successfully**\n\nNow tracking: `" ++ addr ++
    "`\n\n📊 **Tracking Status:**\n• Active wallets: " ++ toString currentCount ++ "/" ++
    toString maxW ++ "\n" ++
    (if 0 < remainingSlots then
      "• Available slots: " ++ toString remainingSlots ++ "\n\n💡 You can track " ++
        toString remainingSlots ++ " more wallet" ++ (if 1 < remainingSlots then "s" else "") ++ "."
    else
      "• Status: **LIMIT REACHED**\n\n⚠️ You\x27ve reached the maximum limit. Use `/untrack` to free up slots.")

/-- The `✅ Stopped tracking` status reply of the `/untrack` handler. -/
def untrackStatusMsg (addr : String) (yourWallets trackedWallets : Nat) (connected : Bool) : String :=
  "✅ Stopped tracking: `" ++ addr ++ "`\n\n📊 **Current Status:**\n• Your wallets: " ++
    toString yourWallets ++ "\n• Total tracked: " ++ toString trackedWallets ++
    "\n• WebSocket: " ++ (if connected then "🟢 Connected" else "🔴 Disconnected")

/-- `'❌ Wallet not found in your tracking list.'` -/
def walletNotFoundMsg : String := "❌ Wallet not found in your tracking list."

/-- `'❌ You are not tracking any wallets.'` -/
def notTrackingAnyMsg : String := "❌ You are not tracking any wallets."

/-- The `⏰ **Auto-Cleanup Alert**` notice of `handleInactivityCleanup`. -/
def autoCleanupMsg (limitMs : Nat) (walletCount : Nat) : String :=
  "⏰ **Auto-Cleanup Alert**\n\nDue to " ++ toString (limitMs / 1000) ++
    " seconds of inactivity, all wallet tracking has been stopped to conserve resources.\n\nYour " ++
    toString walletCount ++
    " wallet(s) have been removed from tracking.\n\nUse `/track` to resume monitoring when needed."

/-- The `/track <address>` handler (bot.js lines 141-215).  `v` is the backend's
pure `validateWalletAddress` format check; `maxW` is `MAX_WALLETS_PER_USER`. -/
def trackCmd (v : String → Bool) (maxW : Nat) (s : BotState) (chatId : Nat) (addr : String) :
    BotState :=
  if v addr then
    let uw := ensureEntry s.userWallets chatId
    let set := getEntry [] uw chatId
    if addr ∈ set then
      { s with userWallets := uw,
               sent := s.sent ++ [(chatId, alreadyTrackingMsg addr)] }
    else if maxW ≤ set.length then
      { s with userWallets := uw,
               sent := s.sent ++ [(chatId, walletLimitMsg maxW set)] }
    else
      let set2 := set ++ [addr]
      { s with userWallets := mapEntry uw chatId set2,
               engine := addElem s.engine addr,
               addCalls := s.addCalls ++ [addr],
               sent := s.sent ++ [(chatId, trackConfirmMsg maxW addr set2.length)] }
  else
    { s with sent := s.sent ++ [(chatId, invalidAddressMsg)] }

/-- The `/untrack <address>` handler (bot.js lines 241-283).  `removeWallet` is
called on the backend only when no other user still tracks the address. -/
def untrackCmd (s : BotState) (chatId : Nat) (addr : String) : BotState :=
  if ∃ p ∈ s.userWallets, p.1 = chatId then
    let set := getEntry [] s.userWallets chatId
    if addr ∈ set then
      let set2 := removeElem set addr
      let uw2 := mapEntry s.userWallets chatId set2
      if ∃ p ∈ uw2, p.1 ≠ chatId ∧ addr ∈ p.2 then
        { s with userWallets := uw2,
                 sent := s.sent ++
                   [(chatId, untrackStatusMsg addr set2.length s.engine.length s.connected)] }
      else
        { s with userWallets := uw2,
                 engine := removeElem s.engine addr,
                 removeCalls := s.removeCalls ++ [addr],
                 sent := s.sent ++
                   [(chatId, untrackStatusMsg addr set2.length
                       (removeElem s.engine addr).length s.connected)] }
    else
      { s with sent := s.sent ++ [(chatId, walletNotFoundMsg)] }
  else
    { s with sent := s.sent ++ [(chatId, notTrackingAnyMsg)] }

/-- `getTotalTrackedWallets` (bot.js lines 1637-1643). -/
def getTotalTrackedWallets (s : BotState) : Nat :=
  (s.userWallets.map (fun p => p.2.length)).sum

/-- `handleInactivityCleanup` (bot.js lines 1667-1734): notify every user with a
non-empty set, call `removeWallet` once per distinct tracked wallet (collected
into a JS `Set` first), then clear `this.userWallets`. -/
def handleInactivityCleanup (limitMs : Nat) (s : BotState) : BotState :=
  let notices := (s.userWallets.filter (fun p => decide (0 < p.2.length))).map
      (fun p => (p.1, autoCleanupMsg limitMs p.2.length))
  let allWallets := s.userWallets.foldl (fun acc p => p.2.foldl addElem acc) []
  { s with userWallets := [],
           engine := allWallets.foldl removeElem s.engine,
           removeCalls := s.removeCalls ++ allWallets,
           sent := s.sent ++ notices }

/-- `cleanupOldMessageIds` (bot.js lines 1646-1659): trim any chat whose stored
message-id list exceeds `MAX_MESSAGES_PER_USER * 2` down to the most recent
`MAX_MESSAGES_PER_USER` entries. -/
def cleanupOldMessageIds (s : BotState) : BotState :=
  { s with botMessageIds := s.botMessageIds.map (fun p =>
      if MAX_MESSAGES_PER_USER * 2 < p.2.length then
        (p.1, p.2.drop (p.2.length - MAX_MESSAGES_PER_USER))
      else p) }

/-- The error-log line of `sendAndTrackMessage`'s `catch` block. -/
def sendTrackErrLog (e : String) : String :=
  "❌ Error sending and tracking message: " ++ e

/-- `if (messageIds.length > MAX) messageIds.splice(0, messageIds.length - MAX)`:
keep only the most recent `MAX_MESSAGES_PER_USER` message ids. -/
def trimIds (l : List Nat) : List Nat :=
  if MAX_MESSAGES_PER_USER < l.length then l.drop (l.length - MAX_MESSAGES_PER_USER) else l

/-- `sendAndTrackMessage` (bot.js lines 1520-1547): send, push the new message
id, keep only the most recent `MAX_MESSAGES_PER_USER` ids (`splice`), and run
the periodic cleanup when the list length is a multiple of 10.  On a rejected
send the error is logged and rethrown (the second component). -/
def sendAndTrackMessage (s : BotState) (chatId : Nat) (msg : String)
    (outcome : Except String Nat) : BotState × Except String Unit :=
  match outcome with
  | Except.ok msgId =>
      let s1 := { s with sent := s.sent ++ [(chatId, msg)] }
      let ids := trimIds (getEntry [] s1.botMessageIds chatId ++ [msgId])
      let s2 := { s1 with botMessageIds := setEntry s1.botMessageIds chatId ids }
      (if ids.length % 10 = 0 then cleanupOldMessageIds s2 else s2, Except.ok ())
  | Except.error e =>
      ({ s with sent := s.sent ++ [(chatId, msg)],
                errorLog := s.errorLog ++ [sendTrackErrLog e] },
       Except.error e)

/-- The canonical transaction record delivered to `onTransactionReceived`.
`Option` fields model JS fields whose falsy values (`undefined`, `null`, `''`)
the code tests with `!x` / `x &&`. -/
structure TxData where
  wallet : Option String
  token : Option String
  buySell : String
  amount : Option String
  signature : String
  timestamp : Int
deriving Repr, DecidableEq

/-- `firstWallet || 'Unknown Wallet'` over `Array.from(trackedWallets)[0]`. -/
def firstTrackedOrUnknown (tracked : List String) : String :=
  match tracked.head? with
  | some f => if f = "" then "Unknown Wallet" else f
  | none => "Unknown Wallet"

/-- `getWalletFromTransaction` (bot.js lines 810-820): use the record's wallet
only when it is a string longer than 20 characters, otherwise fall back to the
first tracked wallet or `'Unknown Wallet'`. -/
def getWalletFromTransaction (tracked : List String) (w : Option String) : String :=
  match w with
  | some a => if 20 < a.length then a else firstTrackedOrUnknown tracked
  | none => firstTrackedOrUnknown tracked

/-- JS `String.replace` with a string pattern: replace the first occurrence. -/
def replaceOnce (s pat : String) : String :=
  match s.splitOn pat with
  | [] => s
  | [_] => s
  | x :: rest => x ++ String.intercalate pat rest

/-- The fallback message branch of `formatTransactionMessage` (bot.js 779-794). -/
def fallbackFormat (shortWallet timestamp : String) (d : TxData) : String :=
  let tokenDisplay := match d.token with
    | some t => if t = "Unknown" then "Unknown Token" else t
    | none => "Unknown Token"
  let amountDisplay := match d.amount with
    | some a => if a = "N/A SOL" then "0 SOL" else a
    | none => "0 SOL"
  let buySellText := if d.buySell = "BUY" then "bought"
    else if d.buySell = "SELL" then "sold" else "transacted"
  let emoji := if d.buySell = "BUY" then "🟢 "
    else if d.buySell = "SELL" then "🔴 " else ""
  "🔔 *New Transaction*\n\n👛 Wallet `" ++ shortWallet ++ "` " ++ emoji ++ buySellText ++
    " " ++ amountDisplay ++ " in " ++ tokenDisplay ++ "\n\n📝 *Signature:* `" ++ d.signature ++
    "`\n⏰ *Time:* " ++ timestamp ++ "\n\n[View on Solscan](https://solscan.io/tx/" ++
    d.signature ++ ")"

/-- The enhanced message branch of `formatTransactionMessage` (bot.js 750-778). -/
def enhancedFormat (shortWallet timestamp tok amt : String) (d : TxData) : String :=
  let tokenSymbol := if tok.startsWith "$" then tok else "$" ++ tok
  let buySellText := if d.buySell = "BUY" then "bought" else "sold"
  let ea : String × String :=
    if amt.contains '🟢' then ("🟢 ", (replaceOnce amt "🟢 ").trim)
    else if amt.contains '🔴' then ("🔴 ", (replaceOnce amt "🔴 ").trim)
    else ((if d.buySell = "BUY" then "🟢 " else "🔴 "), amt)
  "🔔 *New Transaction*\n\n👛 Wallet `" ++ shortWallet ++ "` " ++ ea.1 ++ buySellText ++
    " " ++ ea.2 ++ " in " ++ tokenSymbol ++ "\n\n📝 *Signature:* `" ++ d.signature ++
    "`\n⏰ *Time:* " ++ timestamp ++ "\n\n[View on Solscan](https://solscan.io/tx/" ++
    d.signature ++ ")"

/-- `formatTransactionMessage` (bot.js lines 734-807).  `fmtTime` stands for the
library call `new Date(ts).toLocaleString(...)`; nothing in the embedded body
can throw, so the handler's own `catch` branch is unreachable. -/
def formatTransactionMessage (fmtTime : Int → String) (tracked : List String) (d : TxData) :
    String :=
  let timestamp := fmtTime d.timestamp
  let walletAddress :=
    let g := getWalletFromTransaction tracked d.wallet
    if g = "" then "Unknown" else g
  let shortWallet := if 8 < walletAddress.length then walletAddress.take 8 ++ "..."
    else walletAddress
  match d.token, d.amount with
  | some tok, some amt =>
      if tok = "Unknown" ∨ amt = "N/A SOL" then fallbackFormat shortWallet timestamp d
      else enhancedFormat shortWallet timestamp tok amt d
  | _, _ => fallbackFormat shortWallet timestamp d

/-- The `.catch` log line attached to each send in `notifyUsers`. -/
def notifyFailLog (chatId : Nat) (e : String) : String :=
  "❌ Failed to send to user " ++ toString chatId ++ ": " ++ e

/-- The loop body of `notifyUsers`: when the user's set contains the record's
wallet, format and send, attaching the `.catch` handler that logs a failed
send; otherwise skip the user. -/
def notifyBody (fmtTime : Int → String) (outcomes : Nat → Except String Nat) (d : TxData)
    (w : String) (acc : BotState) (p : Nat × List String) : BotState :=
  if w ∈ p.2 then
    let msg := formatTransactionMessage fmtTime acc.engine d
    match sendAndTrackMessage acc p.1 msg (outcomes p.1) with
    | (s2, Except.ok _) => s2
    | (s2, Except.error e) => { s2 with errorLog := s2.errorLog ++ [notifyFailLog p.1 e] }
  else acc

/-- `notifyUsers` (bot.js lines 692-731): skip records without a usable wallet
field (`!wallet || wallet === 'Unknown Wallet'`), otherwise send the formatted
message to exactly the users whose set contains that wallet; each send's
failure is caught and logged in place and never escapes the loop. -/
def notifyUsers (fmtTime : Int → String) (s : BotState)
    (outcomes : Nat → Except String Nat) (d : TxData) : BotState :=
  match d.wallet with
  | none => s
  | some w =>
    if w = "" ∨ w = "Unknown Wallet" then s
    else s.userWallets.foldl (notifyBody fmtTime outcomes d w) s

/-- The user-visible operations of bot.js that touch the tracked-wallet state. -/
inductive Ev where
  | track (chatId : Nat) (addr : String)
  | untrack (chatId : Nat) (addr : String)
  | inactivityCleanup
  | notify (fmtTime : Int → String) (outcomes : Nat → Except String Nat) (d : TxData)
  | send (chatId : Nat) (msg : String) (outcome : Except String Nat)

/-- One bot step. -/
def step (v : String → Bool) (maxW limitMs : Nat) (s : BotState) : Ev → BotState
  | Ev.track c a => trackCmd v maxW s c a
  | Ev.untrack c a => untrackCmd s c a
  | Ev.inactivityCleanup => handleInactivityCleanup limitMs s
  | Ev.notify f o d => notifyUsers f s o d
  | Ev.send c m o => (sendAndTrackMessage s c m o).1

/-- The freshly constructed bot: empty maps, nothing tracked. -/
def initState : BotState := ⟨[], [], false, [], [], [], [], []⟩

/-- Run a sequence of operations from the initial state. -/
def runEvents (v : String → Bool) (maxW limitMs : Nat) (es : List Ev) : BotState :=
  es.foldl (step v maxW limitMs) initState

/-- Modelled from the spec: `websocket-backend.js` (HeliusWebSocketBackend) is
not under `src/`; the signature-deduplication state it keeps is modelled from
spec section 3 ("duplicate signatures for the same address must be suppressed")
and section 8.  `seenSignatures` records every (address, signature) pair already
processed, `dispatched` the records handed to `onTransactionReceived`, in order. -/
structure DedupState where
  seenSignatures : List (String × String)
  dispatched : List (String × String)
deriving Repr, DecidableEq

/-- Modelled from the spec: processing one provider payload for a tracked
address dispatches a record exactly when its (address, signature) pair has not
been seen before, and marks the pair as seen. -/
def processPayload (s : DedupState) (addr sig : String) : DedupState :=
  if (addr, sig) ∈ s.seenSignatures then s
  else { seenSignatures := s.seenSignatures ++ [(addr, sig)],
         dispatched := s.dispatched ++ [(addr, sig)] }

/-- Run a sequence of (address, signature) payloads through the dedup filter. -/
def runPayloads (ps : List (String × String)) (s : DedupState) : DedupState :=
  ps.foldl (fun t p => processPayload t p.1 p.2) s

/-- The empty dedup state. -/
def initDedup : DedupState := ⟨[], []⟩

/-- Modelled from the spec: `websocket-backend.js` is not under `src/`; the
credential pool of spec section 4.1 is modelled as the pair (index of the active
credential, calls already made on it in the current window).  `recordCall`
serves a call on the active credential and rotates round-robin once the
per-credential call-count threshold `t` is reached, absent rate-limit events. -/
def recordCall (n t : Nat) (s : Nat × Nat) : Nat × Nat :=
  if t ≤ s.2 + 1 then ((s.1 + 1) % n, 0) else (s.1, s.2 + 1)

/-- The indices of the credentials that serve the next `k` calls. -/
def runPool (n t : Nat) : Nat → Nat × Nat → List Nat
  | 0, _ => []
  | Nat.succ k, s => s.1 :: runPool n t k (recordCall n t s)

/-- The pool state after `k` calls. -/
def poolFinal (n t : Nat) : Nat → Nat × Nat → Nat × Nat
  | 0, s => s
  | Nat.succ k, s => poolFinal n t k (recordCall n t s)

/-- The engine's tracked set equals the union of the per-user wallet sets. -/
def unionInv (s : BotState) : Prop :=
  ∀ w, w ∈ s.engine ↔ ∃ p ∈ s.userWallets, w ∈ p.2

/-- The user-wallet map has JS-`Map` semantics: keys are unique. -/
def keysNodup (s : BotState) : Prop :=
  (s.userWallets.map Prod.fst).Nodup

/-- Invariant of the dedup filter: dispatched records are pairwise distinct and
all marked as seen. -/
def dedupInv (s : DedupState) : Prop :=
  s.dispatched.Nodup ∧ ∀ p ∈ s.dispatched, p ∈ s.seenSignatures

/-- A validator accepting everything, used to build concrete witness states. -/
def acceptAll : String → Bool := fun _ => true

/-- A validator rejecting everything, used to build concrete witness states. -/
def rejectAll : String → Bool := fun _ => false

/-- A small concrete bot state for witnesses: user 1 tracks wallet `A`. -/
def sampleState1 : BotState := ⟨[(1, ["A"])], ["A"], false, ["A"], [], [], [], []⟩

/-- A concrete transaction record for witnesses. -/
def sampleTx : TxData := ⟨some "A", some "TOK", "BUY", some "1 SOL", "sig", 0⟩

/-- A concrete transaction record without a wallet field, for witnesses. -/
def sampleTxNone : TxData := ⟨none, some "TOK", "BUY", some "1 SOL", "sig", 0⟩

/-- An outcome function whose sends all succeed, for witness states. -/
def allOk : Nat → Except String Nat := fun _ => Except.ok 1

/-- An outcome function whose sends all fail, for witness states. -/
def allFail : Nat → Except String Nat := fun _ => Except.error "boom"

/-- A constant time formatter, for witness states. -/
def fmtTime0 : Int → String := fun _ => "t0"

/-! ### Basic lemmas about the set and map embeddings -/

theorem mem_addElem {l : List String} {a w : String} : w ∈ addElem l a ↔ w = a ∨ w ∈ l := by
  unfold addElem
  split
  · rename_i h
    constructor
    · exact fun hw => Or.inr hw
    · rintro (rfl | hw) <;> assumption
  · simp [List.mem_append, or_comm]

theorem nodup_addElem {l : List String} {a : String} (h : l.Nodup) : (addElem l a).Nodup := by
  unfold addElem
  split
  · exact h
  · rename_i hm
    simpa [List.nodup_append, h] using hm

theorem mem_removeElem {l : List String} {a w : String} :
    w ∈ removeElem l a ↔ w ∈ l ∧ w ≠ a := by
  induction l with
  | nil => simp [removeElem]
  | cons b rest ih =>
    unfold removeElem
    split
    · rename_i hb
      subst hb
      rw [ih]
      constructor
      · rintro ⟨hw, hne⟩; exact ⟨List.mem_cons_of_mem _ hw, hne⟩
      · rintro ⟨hw, hne⟩
        rcases List.mem_cons.mp hw with rfl | hw
        · exact absurd rfl hne
        · exact ⟨hw, hne⟩
    · rename_i hb
      rw [List.mem_cons, ih, List.mem_cons]
      constructor
      · rintro (rfl | ⟨hw, hne⟩)
        · exact ⟨Or.inl rfl, hb⟩
        · exact ⟨Or.inr hw, hne⟩
      · rintro ⟨rfl | hw, hne⟩
        · exact Or.inl rfl
        · exact Or.inr ⟨hw, hne⟩

theorem mem_foldl_removeElem (l : List String) (acc : List String) (w : String) :
    w ∈ l.foldl removeElem acc ↔ w ∈ acc ∧ w ∉ l := by
  induction l generalizing acc with
  | nil => simp
  | cons a rest ih =>
    rw [List.foldl_cons, ih, mem_removeElem]
    simp only [List.mem_cons]
    constructor
    · rintro ⟨⟨hw, hne⟩, hrest⟩
      exact ⟨hw, by rintro (rfl | h) <;> [exact hne rfl; exact hrest h]⟩
    · rintro ⟨hw, hni⟩
      exact ⟨⟨hw, fun h => hni (Or.inl h)⟩, fun h => hni (Or.inr h)⟩

theorem mem_foldl_addElem (l : List String) (acc : List String) (w : String) :
    w ∈ l.foldl addElem acc ↔ w ∈ acc ∨ w ∈ l := by
  induction l generalizing acc with
  | nil => simp
  | cons a rest ih =>
    rw [List.foldl_cons, ih, mem_addElem]
    simp only [List.mem_cons]
    tauto

theorem nodup_foldl_addElem (l : List String) (acc : List String) (h : acc.Nodup) :
    (l.foldl addElem acc).Nodup := by
  induction l generalizing acc with
  | nil => exact h
  | cons a rest ih => exact ih _ (nodup_addElem h)

theorem mem_collectWallets (m : List (Nat × List String)) (acc : List String) (w : String) :
    w ∈ m.foldl (fun acc p => p.2.foldl addElem acc) acc ↔ w ∈ acc ∨ ∃ p ∈ m, w ∈ p.2 := by
  induction m generalizing acc with
  | nil => simp
  | cons q rest ih =>
    rw [List.foldl_cons, ih, mem_foldl_addElem]
    simp only [List.mem_cons]
    constructor
    · rintro ((hw | hw) | ⟨p, hp, hw⟩)
      · exact Or.inl hw
      · exact Or.inr ⟨q, Or.inl rfl, hw⟩
      · exact Or.inr ⟨p, Or.inr hp, hw⟩
    · rintro (hw | ⟨p, (rfl | hp), hw⟩)
      · exact Or.inl (Or.inl hw)
      · exact Or.inl (Or.inr hw)
      · exact Or.inr ⟨p, hp, hw⟩

theorem nodup_collectWallets (m : List (Nat × List String)) (acc : List String)
    (h : acc.Nodup) : (m.foldl (fun acc p => p.2.foldl addElem acc) acc).Nodup := by
  induction m generalizing acc with
  | nil => exact h
  | cons q rest ih => exact ih _ (nodup_foldl_addElem _ _ h)

theorem getEntry_nil {β : Type} (d : β) (c : Nat) : getEntry d [] c = d := rfl

theorem getEntry_cons {β : Type} (d : β) (p : Nat × β) (rest : List (Nat × β)) (c : Nat) :
    getEntry d (p :: rest) c = if p.1 = c then p.2 else getEntry d rest c := rfl

theorem getEntry_of_not_hasKey {β : Type} (d : β) (m : List (Nat × β)) (c : Nat)
    (h : ¬ ∃ p ∈ m, p.1 = c) : getEntry d m c = d := by
  induction m with
  | nil => rfl
  | cons p rest ih =>
    rw [getEntry_cons]
    rw [if_neg (fun hp => h ⟨p, List.mem_cons_self _ _, hp⟩)]
    exact ih (fun ⟨q, hq, hqc⟩ => h ⟨q, List.mem_cons_of_mem _ hq, hqc⟩)

theorem getEntry_append_of_not_hasKey {β : Type} (d : β) (m l : List (Nat × β)) (c : Nat)
    (h : ¬ ∃ p ∈ m, p.1 = c) : getEntry d (m ++ l) c = getEntry d l c := by
  induction m with
  | nil => rfl
  | cons p rest ih =>
    rw [List.cons_append, getEntry_cons]
    rw [if_neg (fun hp => h ⟨p, List.mem_cons_self _ _, hp⟩)]
    exact ih (fun ⟨q, hq, hqc⟩ => h ⟨q, List.mem_cons_of_mem _ hq, hqc⟩)

theorem getEntry_mapEntry {β : Type} (d : β) (m : List (Nat × β)) (c : Nat) (v : β)
    (hk : ∃ p ∈ m, p.1 = c) : getEntry d (mapEntry m c v) c = v := by
  induction m with
  | nil => simp at hk
  | cons p rest ih =>
    rw [show mapEntry (p :: rest) c v =
        (if p.1 = c then (p.1, v) else p) :: mapEntry rest c v from rfl]
    by_cases hp : p.1 = c
    · rw [if_pos hp, getEntry_cons, if_pos hp]
    · rw [if_neg hp, getEntry_cons, if_neg hp]
      rcases hk with ⟨q, hq, hqc⟩
      rcases List.mem_cons.mp hq with rfl | hq
      · exact absurd hqc hp
      · exact ih ⟨q, hq, hqc⟩

theorem getEntry_setEntry {β : Type} (d : β) (m : List (Nat × β)) (c : Nat) (v : β) :
    getEntry d (setEntry m c v) c = v := by
  unfold setEntry
  split
  · rename_i hk
    exact getEntry_mapEntry d m c v hk
  · rename_i hk
    rw [getEntry_append_of_not_hasKey d m _ c hk]
    simp [getEntry]

theorem getEntry_ensureEntry (m : List (Nat × List String)) (c : Nat) :
    getEntry [] (ensureEntry m c) c = getEntry [] m c := by
  unfold ensureEntry
  split
  · rfl
  · rename_i hk
    rw [getEntry_append_of_not_hasKey _ m _ c hk, getEntry_of_not_hasKey _ m c hk]
    simp [getEntry]

/-! ### C5: invalid address means no mutation -/

/-- C5: a `/track` with an address the validator rejects leaves every piece of
state untouched except for the synchronous invalid-address reply to the caller:
the user-wallet map, the engine's tracked set, and the `addWallet` call log are
all unchanged. -/
theorem track_invalid_address_no_mutation (v : String → Bool) (maxW : Nat) (s : BotState)
    (c : Nat) (a : String) (h : v a = false) :
    trackCmd v maxW s c a = { s with sent := s.sent ++ [(c, invalidAddressMsg)] } := by
  unfold trackCmd
  rw [h]
  simp

/-- Witness for C5 at a concrete state and address. -/
theorem track_invalid_address_no_mutation_witness :
    rejectAll "xyz" = false ∧
      trackCmd rejectAll 3 sampleState1 1 "xyz" =
        { sampleState1 with sent := sampleState1.sent ++ [(1, invalidAddressMsg)] } :=
  ⟨rfl, track_invalid_address_no_mutation rejectAll 3 sampleState1 1 "xyz" rfl⟩

/-! ### C4: duplicate or over-limit track requests are rejected -/

/-- C4: when the address is already in the user's set, or the user's set has
reached `MAX_WALLETS_PER_USER`, `/track` changes neither the user's wallet set
nor the engine's tracked set, and `addWallet` is not called. -/
theorem track_rejects_duplicate_or_full (v : String → Bool) (maxW : Nat) (s : BotState)
    (c : Nat) (a : String)
    (h : a ∈ getEntry [] s.userWallets c ∨ maxW ≤ (getEntry [] s.userWallets c).length) :
    getEntry [] (trackCmd v maxW s c a).userWallets c = getEntry [] s.userWallets c
    ∧ (trackCmd v maxW s c a).addCalls = s.addCalls
    ∧ (trackCmd v maxW s c a).engine = s.engine := by
  have hset : getEntry [] (ensureEntry s.userWallets c) c = getEntry [] s.userWallets c :=
    getEntry_ensureEntry s.userWallets c
  unfold trackCmd
  by_cases hv : v a
  · rw [if_pos hv]
    dsimp only
    split
    · exact ⟨hset, rfl, rfl⟩
    · split
      · exact ⟨hset, rfl, rfl⟩
      · rename_i hmem hlen
        rw [hset] at hmem hlen
        rcases h with h | h
        · exact absurd h hmem
        · exact absurd h hlen
  · rw [if_neg hv]
    exact ⟨rfl, rfl, rfl⟩

/-- Witness for C4: user 1 already tracks wallet `A`. -/
theorem track_rejects_duplicate_or_full_witness :
    ("A" ∈ getEntry [] sampleState1.userWallets 1 ∨
        3 ≤ (getEntry [] sampleState1.userWallets 1).length)
    ∧ getEntry [] (trackCmd acceptAll 3 sampleState1 1 "A").userWallets 1 =
        getEntry [] sampleState1.userWallets 1
    ∧ (trackCmd acceptAll 3 sampleState1 1 "A").addCalls = sampleState1.addCalls
    ∧ (trackCmd acceptAll 3 sampleState1 1 "A").engine = sampleState1.engine := by
  refine ⟨Or.inl (by decide), ?_⟩
  exact track_rejects_duplicate_or_full acceptAll 3 sampleState1 1 "A" (Or.inl (by decide))

/-! ### C9: bounded message-id storage -/

theorem getEntry_cleanup_map (m : List (Nat × List Nat)) (c : Nat) :
    getEntry [] (m.map (fun p =>
      if MAX_MESSAGES_PER_USER * 2 < p.2.length then
        (p.1, p.2.drop (p.2.length - MAX_MESSAGES_PER_USER)) else p)) c
    = (if MAX_MESSAGES_PER_USER * 2 < (getEntry [] m c).length then
        (getEntry [] m c).drop ((getEntry [] m c).length - MAX_MESSAGES_PER_USER)
      else getEntry [] m c) := by
  induction m with
  | nil => simp [getEntry, MAX_MESSAGES_PER_USER]
  | cons p rest ih =>
    obtain ⟨k, l⟩ := p
    rw [List.map_cons]
    by_cases hcond : MAX_MESSAGES_PER_USER * 2 < l.length
    · rw [if_pos hcond, getEntry_cons, getEntry_cons]
      dsimp only
      by_cases hk : k = c
      · rw [if_pos hk, if_pos hk, if_pos hcond]
      · rw [if_neg hk, if_neg hk, ih]
    · rw [if_neg hcond, getEntry_cons, getEntry_cons]
      dsimp only
      by_cases hk : k = c
      · rw [if_pos hk, if_pos hk, if_neg hcond]
      · rw [if_neg hk, if_neg hk, ih]

theorem trimIds_eq_drop (l : List Nat) :
    trimIds l = l.drop (l.length - MAX_MESSAGES_PER_USER) := by
  unfold trimIds
  split
  · rfl
  · rename_i hle
    rw [Nat.sub_eq_zero_of_le (by omega), List.drop_zero]

theorem trimIds_length_le (l : List Nat) :
    (trimIds l).length ≤ MAX_MESSAGES_PER_USER := by
  unfold trimIds
  split
  · rw [List.length_drop]
    omega
  · omega

theorem cleanupOldMessageIds_botMessageIds (s : BotState) :
    (cleanupOldMessageIds s).botMessageIds
      = s.botMessageIds.map (fun p =>
          if MAX_MESSAGES_PER_USER * 2 < p.2.length then
            (p.1, p.2.drop (p.2.length - MAX_MESSAGES_PER_USER)) else p) := rfl

theorem getEntry_mapEntry_ne {β : Type} (d : β) (m : List (Nat × β)) (c : Nat) (v : β)
    (c2 : Nat) (h : c2 ≠ c) : getEntry d (mapEntry m c v) c2 = getEntry d m c2 := by
  induction m with
  | nil => rfl
  | cons p rest ih =>
    rw [show mapEntry (p :: rest) c v =
        (if p.1 = c then (p.1, v) else p) :: mapEntry rest c v from rfl]
    by_cases hp : p.1 = c
    · rw [if_pos hp, getEntry_cons, getEntry_cons]
      dsimp only
      rw [if_neg (by omega), if_neg (by omega)]
      exact ih
    · rw [if_neg hp, getEntry_cons, getEntry_cons]
      by_cases hp2 : p.1 = c2
      · rw [if_pos hp2, if_pos hp2]
      · rw [if_neg hp2, if_neg hp2]
        exact ih

theorem getEntry_append_single_ne {β : Type} (d : β) (m : List (Nat × β)) (c : Nat) (v : β)
    (c2 : Nat) (h : c2 ≠ c) : getEntry d (m ++ [(c, v)]) c2 = getEntry d m c2 := by
  induction m with
  | nil =>
    rw [List.nil_append, getEntry_cons, getEntry_nil]
    dsimp only
    rw [if_neg (by omega)]
  | cons p rest ih =>
    rw [List.cons_append, getEntry_cons, getEntry_cons]
    by_cases hp : p.1 = c2
    · rw [if_pos hp, if_pos hp]
    · rw [if_neg hp, if_neg hp]
      exact ih

theorem getEntry_setEntry_ne {β : Type} (d : β) (m : List (Nat × β)) (c : Nat) (v : β)
    (c2 : Nat) (h : c2 ≠ c) : getEntry d (setEntry m c v) c2 = getEntry d m c2 := by
  unfold setEntry
  split
  · exact getEntry_mapEntry_ne d m c v c2 h
  · exact getEntry_append_single_ne d m c v c2 h

theorem sendATM_ok_getEntry (s : BotState) (c : Nat) (msg : String) (msgId : Nat) :
    getEntry [] ((sendAndTrackMessage s c msg (Except.ok msgId)).1).botMessageIds c
      = trimIds (getEntry [] s.botMessageIds c ++ [msgId]) := by
  unfold sendAndTrackMessage
  dsimp only
  split
  · rw [cleanupOldMessageIds_botMessageIds]
    dsimp only
    rw [getEntry_cleanup_map, getEntry_setEntry]
    rw [if_neg (by
      have := trimIds_length_le (getEntry [] s.botMessageIds c ++ [msgId])
      omega)]
  · dsimp only
    rw [getEntry_setEntry]

theorem sendATM_ok_getEntry_ne (s : BotState) (c : Nat) (msg : String) (msgId : Nat)
    (c2 : Nat) (h : c2 ≠ c) :
    getEntry [] ((sendAndTrackMessage s c msg (Except.ok msgId)).1).botMessageIds c2
      = (if MAX_MESSAGES_PER_USER * 2 < (getEntry [] s.botMessageIds c2).length then
          (getEntry [] s.botMessageIds c2).drop
            ((getEntry [] s.botMessageIds c2).length - MAX_MESSAGES_PER_USER)
        else getEntry [] s.botMessageIds c2)
    ∨ getEntry [] ((sendAndTrackMessage s c msg (Except.ok msgId)).1).botMessageIds c2
      = getEntry [] s.botMessageIds c2 := by
  unfold sendAndTrackMessage
  dsimp only
  split
  · left
    rw [cleanupOldMessageIds_botMessageIds]
    dsimp only
    rw [getEntry_cleanup_map, getEntry_setEntry_ne _ _ _ _ _ h]
  · right
    dsimp only
    rw [getEntry_setEntry_ne _ _ _ _ _ h]

theorem sendATM_suffix_ne (s : BotState) (c : Nat) (msg : String) (msgId : Nat)
    (c2 : Nat) (h : c2 ≠ c) :
    List.IsSuffix
      (getEntry [] ((sendAndTrackMessage s c msg (Except.ok msgId)).1).botMessageIds c2)
      (getEntry [] s.botMessageIds c2) := by
  rcases sendATM_ok_getEntry_ne s c msg msgId c2 h with heq | heq
  · rw [heq]
    split
    · exact List.drop_suffix _ _
    · exact List.suffix_refl _
  · rw [heq]

theorem sendATM_error_msgIds (s : BotState) (c : Nat) (msg : String) (e : String) :
    ((sendAndTrackMessage s c msg (Except.error e)).1).botMessageIds = s.botMessageIds := rfl

theorem sendATM_bounded (s : BotState) (c : Nat) (msg : String) (o : Except String Nat)
    (h : ∀ c2, (getEntry [] s.botMessageIds c2).length ≤ MAX_MESSAGES_PER_USER) :
    ∀ c2, (getEntry [] ((sendAndTrackMessage s c msg o).1).botMessageIds c2).length
        ≤ MAX_MESSAGES_PER_USER := by
  intro c2
  cases o with
  | error e =>
    rw [sendATM_error_msgIds]
    exact h c2
  | ok msgId =>
    by_cases hc : c2 = c
    · subst hc
      rw [sendATM_ok_getEntry]
      exact trimIds_length_le _
    · rcases sendATM_ok_getEntry_ne s c msg msgId c2 hc with heq | heq
      · rw [heq]
        split
        · rw [List.length_drop]
          have := h c2
          omega
        · exact h c2
      · rw [heq]
        exact h c2

theorem trackCmd_msgIds (v : String → Bool) (maxW : Nat) (s : BotState) (c : Nat)
    (a : String) : (trackCmd v maxW s c a).botMessageIds = s.botMessageIds := by
  unfold trackCmd
  split
  · dsimp only
    split
    · rfl
    · split <;> rfl
  · rfl

theorem untrackCmd_msgIds (s : BotState) (c : Nat) (a : String) :
    (untrackCmd s c a).botMessageIds = s.botMessageIds := by
  unfold untrackCmd
  split
  · dsimp only
    split
    · split <;> rfl
    · rfl
  · rfl

theorem cleanup_msgIds (limitMs : Nat) (s : BotState) :
    (handleInactivityCleanup limitMs s).botMessageIds = s.botMessageIds := rfl

theorem notifyBody_bounded (fmtTime : Int → String) (outcomes : Nat → Except String Nat)
    (d : TxData) (w : String) (acc : BotState) (p : Nat × List String)
    (h : ∀ c2, (getEntry [] acc.botMessageIds c2).length ≤ MAX_MESSAGES_PER_USER) :
    ∀ c2, (getEntry [] (notifyBody fmtTime outcomes d w acc p).botMessageIds c2).length
        ≤ MAX_MESSAGES_PER_USER := by
  intro c2
  unfold notifyBody
  by_cases hw : w ∈ p.2
  · simp only [if_pos hw]
    cases ho : outcomes p.1 with
    | ok k =>
      rw [show sendAndTrackMessage acc p.1 (formatTransactionMessage fmtTime acc.engine d)
            (Except.ok k)
          = ((sendAndTrackMessage acc p.1 (formatTransactionMessage fmtTime acc.engine d)
              (Except.ok k)).1, Except.ok ()) from rfl]
      dsimp only
      exact sendATM_bounded acc p.1 _ (Except.ok k) h c2
    | error e =>
      rw [show sendAndTrackMessage acc p.1 (formatTransactionMessage fmtTime acc.engine d)
            (Except.error e)
          = ((sendAndTrackMessage acc p.1 (formatTransactionMessage fmtTime acc.engine d)
              (Except.error e)).1, Except.error e) from rfl]
      dsimp only
      exact sendATM_bounded acc p.1 _ (Except.error e) h c2
  · simp only [if_neg hw]
    exact h c2

theorem notify_foldl_bounded (fmtTime : Int → String) (outcomes : Nat → Except String Nat)
    (d : TxData) (w : String) :
    ∀ (l : List (Nat × List String)) (acc : BotState),
      (∀ c2, (getEntry [] acc.botMessageIds c2).length ≤ MAX_MESSAGES_PER_USER) →
      ∀ c2, (getEntry []
          (l.foldl (notifyBody fmtTime outcomes d w) acc).botMessageIds c2).length
        ≤ MAX_MESSAGES_PER_USER := by
  intro l
  induction l with
  | nil => exact fun acc h => h
  | cons p rest ih =>
    intro acc h
    rw [List.foldl_cons]
    exact ih _ (notifyBody_bounded fmtTime outcomes d w acc p h)

theorem step_bounded (v : String → Bool) (maxW limitMs : Nat) (s : BotState) (e : Ev)
    (h : ∀ c2, (getEntry [] s.botMessageIds c2).length ≤ MAX_MESSAGES_PER_USER) :
    ∀ c2, (getEntry [] (step v maxW limitMs s e).botMessageIds c2).length
        ≤ MAX_MESSAGES_PER_USER := by
  intro c2
  cases e with
  | track c a =>
    show (getEntry [] (trackCmd v maxW s c a).botMessageIds c2).length ≤ _
    rw [trackCmd_msgIds]
    exact h c2
  | untrack c a =>
    show (getEntry [] (untrackCmd s c a).botMessageIds c2).length ≤ _
    rw [untrackCmd_msgIds]
    exact h c2
  | inactivityCleanup =>
    show (getEntry [] (handleInactivityCleanup limitMs s).botMessageIds c2).length ≤ _
    rw [cleanup_msgIds]
    exact h c2
  | notify f o d =>
    show (getEntry [] (notifyUsers f s o d).botMessageIds c2).length ≤ _
    unfold notifyUsers
    cases hd : d.wallet with
    | none => exact h c2
    | some w =>
      dsimp only
      split
      · exact h c2
      · exact notify_foldl_bounded f o d w s.userWallets s h c2
  | send c m o =>
    exact sendATM_bounded s c m o h c2

theorem runEvents_bounded (v : String → Bool) (maxW limitMs : Nat) (es : List Ev) :
    ∀ c2, (getEntry [] (runEvents v maxW limitMs es).botMessageIds c2).length
        ≤ MAX_MESSAGES_PER_USER := by
  suffices hsuf : ∀ s : BotState,
      (∀ c2, (getEntry [] s.botMessageIds c2).length ≤ MAX_MESSAGES_PER_USER) →
      ∀ c2, (getEntry [] (es.foldl (step v maxW limitMs) s).botMessageIds c2).length
          ≤ MAX_MESSAGES_PER_USER by
    refine hsuf initState ?_
    intro c2
    show (getEntry [] ([] : List (Nat × List Nat)) c2).length ≤ _
    rw [getEntry_nil]
    exact Nat.zero_le _
  induction es with
  | nil => exact fun s h => h
  | cons e rest ih =>
    intro s h
    rw [List.foldl_cons]
    exact ih _ (step_bounded v maxW limitMs s e h)

/-- C9: along every event trace, every chat's stored message-id list stays
within `MAX_MESSAGES_PER_USER` (50); a successful `sendAndTrackMessage` leaves
the messaged chat exactly the most recent ids of the pushed sequence (older
ids dropped first: the last-50 suffix of old ++ [new]), only ever trims any
other chat's list from the front (the new list is a suffix of the old one),
and a failed send stores nothing for any chat. -/
theorem sendAndTrackMessage_bounds_ids (v : String → Bool) (maxW limitMs : Nat)
    (es : List Ev) (s : BotState) (c : Nat) (msg : String) (msgId : Nat) :
    (∀ c2, (getEntry [] (runEvents v maxW limitMs es).botMessageIds c2).length
        ≤ MAX_MESSAGES_PER_USER)
    ∧ getEntry [] ((sendAndTrackMessage s c msg (Except.ok msgId)).1).botMessageIds c =
        (getEntry [] s.botMessageIds c ++ [msgId]).drop
          ((getEntry [] s.botMessageIds c ++ [msgId]).length - MAX_MESSAGES_PER_USER)
    ∧ (getEntry [] ((sendAndTrackMessage s c msg (Except.ok msgId)).1).botMessageIds c).length
        ≤ MAX_MESSAGES_PER_USER
    ∧ List.IsSuffix
        (getEntry [] ((sendAndTrackMessage s c msg (Except.ok msgId)).1).botMessageIds c)
        (getEntry [] s.botMessageIds c ++ [msgId])
    ∧ (∀ c2, c2 ≠ c → List.IsSuffix
        (getEntry [] ((sendAndTrackMessage s c msg (Except.ok msgId)).1).botMessageIds c2)
        (getEntry [] s.botMessageIds c2))
    ∧ ∀ e : String,
        ((sendAndTrackMessage s c msg (Except.error e)).1).botMessageIds = s.botMessageIds := by
  refine ⟨runEvents_bounded v maxW limitMs es, ?_, ?_, ?_, ?_, fun e => rfl⟩
  · rw [sendATM_ok_getEntry, trimIds_eq_drop]
  · rw [sendATM_ok_getEntry]
    exact trimIds_length_le _
  · rw [sendATM_ok_getEntry, trimIds_eq_drop]
    exact List.drop_suffix _ _
  · intro c2 hc2
    exact sendATM_suffix_ne s c msg msgId c2 hc2

/-- Witness for C9: a trace of two successful sends to chat 1, and the
other-chat suffix clause for chat 2 at a concrete state. -/
theorem sendAndTrackMessage_bounds_ids_witness :
    (getEntry [] (runEvents acceptAll 3 300000
        [Ev.send 1 "m1" (Except.ok 7), Ev.send 1 "m2" (Except.ok 8)]).botMessageIds 1).length
      ≤ MAX_MESSAGES_PER_USER
    ∧ (2 : Nat) ≠ 1
    ∧ List.IsSuffix
        (getEntry [] ((sendAndTrackMessage sampleState1 1 "m1" (Except.ok 7)).1).botMessageIds 2)
        (getEntry [] sampleState1.botMessageIds 2) := by
  have h := sendAndTrackMessage_bounds_ids acceptAll 3 300000
      [Ev.send 1 "m1" (Except.ok 7), Ev.send 1 "m2" (Except.ok 8)] sampleState1 1 "m1" 7
  exact ⟨h.1 1, by decide, h.2.2.2.2.1 2 (by decide)⟩

/-! ### C3: duplicate signatures are suppressed (spec-modelled backend) -/

theorem processPayload_inv (s : DedupState) (a g : String) (h : dedupInv s) :
    dedupInv (processPayload s a g) := by
  unfold processPayload
  split
  · exact h
  · rename_i hni
    obtain ⟨hnd, hsub⟩ := h
    constructor
    · rw [List.nodup_append]
      refine ⟨hnd, List.nodup_singleton _, ?_⟩
      intro x hx hx2
      rw [List.mem_singleton] at hx2
      subst hx2
      exact hni (hsub _ hx)
    · intro p hp
      rcases List.mem_append.mp hp with hp | hp
      · exact List.mem_append.mpr (Or.inl (hsub _ hp))
      · exact List.mem_append.mpr (Or.inr hp)

theorem runPayloads_inv (ps : List (String × String)) (s : DedupState) (h : dedupInv s) :
    dedupInv (runPayloads ps s) := by
  induction ps generalizing s with
  | nil => exact h
  | cons p rest ih => exact ih _ (processPayload_inv _ _ _ h)

theorem count_le_one_of_nodup {α : Type} [BEq α] [LawfulBEq α] {l : List α}
    (h : l.Nodup) (a : α) : l.count a ≤ 1 := by
  induction l with
  | nil => simp
  | cons b rest ih =>
    rw [List.count_cons]
    rcases List.nodup_cons.mp h with ⟨hb, hrest⟩
    by_cases hab : a = b
    · subst hab
      have : rest.count a = 0 := List.count_eq_zero.mpr hb
      simp [this]
    · have hba : (b == a) = false := beq_false_of_ne (fun hba => hab hba.symm)
      rw [hba]
      simpa using ih hrest

/-- C3: across any sequence of provider payloads, at most one record with a
given (address, signature) pair is ever dispatched, and a payload whose pair is
already seen changes nothing (no second dispatch). -/
theorem dedup_dispatch_at_most_once (ps : List (String × String)) (a g : String) :
    ((runPayloads ps initDedup).dispatched.count (a, g)) ≤ 1
    ∧ ∀ s : DedupState, (a, g) ∈ s.seenSignatures → processPayload s a g = s := by
  constructor
  · have h := runPayloads_inv ps initDedup ⟨List.nodup_nil, by simp [initDedup]⟩
    exact count_le_one_of_nodup h.1 (a, g)
  · intro s hs
    unfold processPayload
    rw [if_pos hs]

/-- Witness for C3: the same (address, signature) payload twice. -/
theorem dedup_dispatch_at_most_once_witness :
    ((runPayloads [("A", "s1"), ("A", "s1")] initDedup).dispatched.count ("A", "s1") ≤ 1)
    ∧ ("A", "s1") ∈ (runPayloads [("A", "s1")] initDedup).seenSignatures
    ∧ processPayload (runPayloads [("A", "s1")] initDedup) "A" "s1"
        = runPayloads [("A", "s1")] initDedup := by
  have h := dedup_dispatch_at_most_once [("A", "s1"), ("A", "s1")] "A" "s1"
  exact ⟨h.1, by decide, h.2 _ (by decide)⟩

/-! ### C8: round-robin credential rotation (spec-modelled backend) -/

theorem runPool_add (n t a b : Nat) (s : Nat × Nat) :
    runPool n t (a + b) s = runPool n t a s ++ runPool n t b (poolFinal n t a s) := by
  induction a generalizing s with
  | zero => simp [runPool, poolFinal]
  | succ k ih =>
    rw [Nat.succ_add]
    show s.1 :: runPool n t (k + b) (recordCall n t s) = _
    rw [ih]
    rfl

theorem poolFinal_add (n t a b : Nat) (s : Nat × Nat) :
    poolFinal n t (a + b) s = poolFinal n t b (poolFinal n t a s) := by
  induction a generalizing s with
  | zero => rw [Nat.zero_add]; rfl
  | succ k ih =>
    rw [Nat.succ_add]
    show poolFinal n t (k + b) (recordCall n t s) = _
    rw [ih]
    rfl

theorem runPool_block (n t : Nat) (ht : 0 < t) (i : Nat) :
    ∀ j, 0 < j → j ≤ t →
      runPool n t j (i, t - j) = List.replicate j i
      ∧ poolFinal n t j (i, t - j) = ((i + 1) % n, 0) := by
  intro j
  induction j with
  | zero => intro h; exact absurd h (by omega)
  | succ k ih =>
    intro _ hle
    by_cases hk : k = 0
    · subst hk
      constructor
      · show (i, t - 1).1 :: runPool n t 0 (recordCall n t (i, t - 1)) = List.replicate 1 i
        simp [runPool]
      · show poolFinal n t 0 (recordCall n t (i, t - 1)) = ((i + 1) % n, 0)
        unfold poolFinal recordCall
        dsimp only
        rw [if_pos (by omega)]
    · have hk1 : 0 < k := Nat.pos_of_ne_zero hk
      have hkt : k ≤ t := by omega
      have hrc : recordCall n t (i, t - Nat.succ k) = (i, t - k) := by
        unfold recordCall
        dsimp only
        rw [if_neg (by omega)]
        have : t - Nat.succ k + 1 = t - k := by omega
        rw [this]
      obtain ⟨h1, h2⟩ := ih hk1 hkt
      constructor
      · show (i, t - Nat.succ k).1 :: runPool n t k (recordCall n t (i, t - Nat.succ k))
            = List.replicate (Nat.succ k) i
        rw [hrc, h1, List.replicate_succ]
      · show poolFinal n t k (recordCall n t (i, t - Nat.succ k)) = ((i + 1) % n, 0)
        rw [hrc]
        exact h2

theorem runPool_blocks (n t : Nat) (hn : 0 < n) (ht : 0 < t) :
    ∀ k, k ≤ n →
      runPool n t (t * k) (0, 0) = (List.range k).flatMap (List.replicate t)
      ∧ poolFinal n t (t * k) (0, 0) = (k % n, 0) := by
  intro k
  induction k with
  | zero =>
    intro _
    constructor
    · simp [runPool]
    · simp [poolFinal]
  | succ k ih =>
    intro hk
    obtain ⟨h1, h2⟩ := ih (by omega)
    have hblock := runPool_block n t ht (k % n) t ht le_rfl
    rw [Nat.sub_self] at hblock
    have hkn : k % n = k := Nat.mod_eq_of_lt (by omega)
    have hmul : t * Nat.succ k = t * k + t := Nat.mul_succ t k
    constructor
    · rw [hmul, runPool_add, h1, h2, hblock.1, hkn]
      rw [List.range_succ, List.flatMap_append]
      simp
    · rw [hmul, poolFinal_add, h2, hblock.2, hkn]

theorem count_range_flatMap_replicate (N t i : Nat) (hi : i < N) :
    ((List.range N).flatMap (List.replicate t)).count i = t := by
  induction N with
  | zero => omega
  | succ N ih =>
    rw [List.range_succ, List.flatMap_append, List.count_append]
    by_cases h : i < N
    · rw [ih h]
      have hz : (([N] : List Nat).flatMap (List.replicate t)).count i = 0 := by
        rw [List.count_eq_zero]
        intro hmem
        rw [List.mem_flatMap] at hmem
        obtain ⟨j, hj, hm⟩ := hmem
        rw [List.mem_replicate] at hm
        rw [List.mem_singleton] at hj
        omega
      rw [hz]
      omega
    · have hiN : i = N := by omega
      subst hiN
      have h0 : ((List.range i).flatMap (List.replicate t)).count i = 0 := by
        rw [List.count_eq_zero]
        intro hmem
        rw [List.mem_flatMap] at hmem
        obtain ⟨j, hj, hm⟩ := hmem
        rw [List.mem_replicate] at hm
        rw [List.mem_range] at hj
        omega
      rw [h0]
      have hsing : (([i] : List Nat).flatMap (List.replicate t)).count i = t := by
        simp
      rw [hsing]
      omega

/-- C8: with `n` credentials and per-credential threshold `t` and no rate-limit
events, the first `t * n` calls are served by credential 0 for `t` calls, then
credential 1, ..., in the original order; every credential serves exactly `t`
calls. -/
theorem credential_rotation_round_robin (n t : Nat) (hn : 0 < n) (ht : 0 < t) :
    runPool n t (t * n) (0, 0) = (List.range n).flatMap (List.replicate t)
    ∧ ∀ i, i < n → (runPool n t (t * n) (0, 0)).count i = t := by
  have h := (runPool_blocks n t hn ht n le_rfl).1
  refine ⟨h, ?_⟩
  intro i hi
  rw [h]
  exact count_range_flatMap_replicate n t i hi

/-- Witness for C8 with 2 credentials and threshold 3. -/
theorem credential_rotation_round_robin_witness :
    (0 < 2 ∧ 0 < 3)
    ∧ runPool 2 3 (3 * 2) (0, 0) = (List.range 2).flatMap (List.replicate 3)
    ∧ (runPool 2 3 (3 * 2) (0, 0)).count 0 = 3 := by
  have h := credential_rotation_round_robin 2 3 (by decide) (by decide)
  exact ⟨⟨by decide, by decide⟩, h.1, h.2 0 (by decide)⟩

/-! ### C6: the inactivity-driven full reset -/

/-- C6: once the inactivity reset runs (it is triggered only when at least one
wallet is tracked), the per-user wallet map is empty and `removeWallet` was
called exactly once for each distinct wallet tracked by at least one user. -/
theorem inactivity_cleanup_clears_all (limitMs : Nat) (s : BotState)
    (h : 0 < getTotalTrackedWallets s) :
    (handleInactivityCleanup limitMs s).userWallets = []
    ∧ ∀ w, (((handleInactivityCleanup limitMs s).removeCalls).drop s.removeCalls.length).count w
        = if ∃ p ∈ s.userWallets, w ∈ p.2 then 1 else 0 := by
  constructor
  · rfl
  · intro w
    have hdrop : ((handleInactivityCleanup limitMs s).removeCalls).drop s.removeCalls.length
        = s.userWallets.foldl (fun acc p => p.2.foldl addElem acc) [] := by
      show (s.removeCalls ++ _).drop s.removeCalls.length = _
      rw [List.drop_left]
    rw [hdrop]
    have hnd := nodup_collectWallets s.userWallets [] List.nodup_nil
    have hmem := mem_collectWallets s.userWallets [] w
    simp only [List.not_mem_nil, false_or] at hmem
    by_cases hw : ∃ p ∈ s.userWallets, w ∈ p.2
    · rw [if_pos hw]
      have hin : w ∈ s.userWallets.foldl (fun acc p => p.2.foldl addElem acc) [] := hmem.mpr hw
      have h1 : (s.userWallets.foldl (fun acc p => p.2.foldl addElem acc) []).count w ≤ 1 :=
        count_le_one_of_nodup hnd w
      have h2 : (s.userWallets.foldl (fun acc p => p.2.foldl addElem acc) []).count w ≠ 0 := by
        rw [ne_eq, List.count_eq_zero]
        exact fun hc => hc hin
      omega
    · rw [if_neg hw, List.count_eq_zero]
      exact fun hc => hw (hmem.mp hc)

/-- Witness for C6 at a concrete one-user state. -/
theorem inactivity_cleanup_clears_all_witness :
    0 < getTotalTrackedWallets sampleState1
    ∧ (handleInactivityCleanup 300000 sampleState1).userWallets = []
    ∧ (((handleInactivityCleanup 300000 sampleState1).removeCalls).drop
        sampleState1.removeCalls.length).count "A" = 1 := by
  have h := inactivity_cleanup_clears_all 300000 sampleState1 (by decide)
  refine ⟨by decide, h.1, ?_⟩
  have h2 := h.2 "A"
  rw [if_pos ⟨(1, ["A"]), by decide, by decide⟩] at h2
  exact h2

/-! ### C10: the wallet shown in a notification for records without a usable
wallet field -/

theorem fallbackFormat_prefix (sw ts : String) (d : TxData) :
    ∃ rest, fallbackFormat sw ts d =
      "🔔 *New Transaction*\n\n👛 Wallet `" ++ sw ++ "` " ++ rest := by
  unfold fallbackFormat
  dsimp only
  simp only [String.append_assoc]
  exact ⟨_, rfl⟩

theorem enhancedFormat_prefix (sw ts tok amt : String) (d : TxData) :
    ∃ rest, enhancedFormat sw ts tok amt d =
      "🔔 *New Transaction*\n\n👛 Wallet `" ++ sw ++ "` " ++ rest := by
  unfold enhancedFormat
  dsimp only
  simp only [String.append_assoc]
  exact ⟨_, rfl⟩

/-- C10: when a record's wallet field is not a string of length greater
than 20, `getWalletFromTransaction` answers the engine's first tracked wallet
(`'Unknown Wallet'` when nothing is tracked), and the notification text
attributes the transaction to that fallback wallet — which, as the last
conjunct shows on a concrete record, can be an address that did not
participate in the transaction. -/
theorem wallet_fallback_attribution (fmtTime : Int → String) (tracked : List String)
    (d : TxData) (hlen : ∀ a, d.wallet = some a → a.length ≤ 20) (hne : "" ∉ tracked) :
    getWalletFromTransaction tracked d.wallet = tracked.headD "Unknown Wallet"
    ∧ (∃ rest, formatTransactionMessage fmtTime tracked d =
        "🔔 *New Transaction*\n\n👛 Wallet `" ++
          (if 8 < (tracked.headD "Unknown Wallet").length then
            (tracked.headD "Unknown Wallet").take 8 ++ "..."
          else tracked.headD "Unknown Wallet") ++ "` " ++ rest)
    ∧ getWalletFromTransaction ["5t2UrDiTe8wJH8SFmWFK6V5u2PZ6wjPrNN57VvGRCC7P"] (some "W2")
        ≠ "W2" := by
  have hfirst : firstTrackedOrUnknown tracked = tracked.headD "Unknown Wallet" := by
    cases tracked with
    | nil => rfl
    | cons hd tl =>
      unfold firstTrackedOrUnknown
      dsimp only [List.head?, List.headD]
      rw [if_neg (fun hhd => hne (by rw [← hhd]; exact List.mem_cons_self _ _))]
  have h1 : getWalletFromTransaction tracked d.wallet = tracked.headD "Unknown Wallet" := by
    cases hw : d.wallet with
    | none =>
      unfold getWalletFromTransaction
      dsimp only
      rw [hfirst]
    | some a =>
      unfold getWalletFromTransaction
      dsimp only
      rw [if_neg (Nat.not_lt.mpr (hlen a hw)), hfirst]
  have hgne : tracked.headD "Unknown Wallet" ≠ "" := by
    cases tracked with
    | nil => decide
    | cons hd tl =>
      dsimp only [List.headD]
      exact fun hhd => hne (by rw [← hhd]; exact List.mem_cons_self _ _)
  refine ⟨h1, ?_, by decide⟩
  unfold formatTransactionMessage
  rw [h1, if_neg hgne]
  rcases d with ⟨dw, dt, db, da, ds, dts⟩
  cases dt with
  | none => exact fallbackFormat_prefix _ _ _
  | some tok =>
    cases da with
    | none => exact fallbackFormat_prefix _ _ _
    | some amt =>
      dsimp only
      split
      · exact fallbackFormat_prefix _ _ _
      · exact enhancedFormat_prefix _ _ _ _ _

/-- Witness for C10: no wallet field, one long tracked wallet. -/
theorem wallet_fallback_attribution_witness :
    ("" ∉ ["5t2UrDiTe8wJH8SFmWFK6V5u2PZ6wjPrNN57VvGRCC7P"])
    ∧ getWalletFromTransaction ["5t2UrDiTe8wJH8SFmWFK6V5u2PZ6wjPrNN57VvGRCC7P"]
        sampleTxNone.wallet
        = (["5t2UrDiTe8wJH8SFmWFK6V5u2PZ6wjPrNN57VvGRCC7P"] : List String).headD
            "Unknown Wallet" := by
  have h := wallet_fallback_attribution fmtTime0
      ["5t2UrDiTe8wJH8SFmWFK6V5u2PZ6wjPrNN57VvGRCC7P"] sampleTxNone
      (fun a ha => by simp [sampleTxNone] at ha) (by decide)
  exact ⟨by decide, h.1⟩

/-! ### C2 and C7: delivery scope and failure isolation of notifyUsers -/

theorem sendATM_state_effects (s : BotState) (c : Nat) (m : String) (o : Except String Nat) :
    (sendAndTrackMessage s c m o).1.userWallets = s.userWallets
    ∧ (sendAndTrackMessage s c m o).1.engine = s.engine
    ∧ (sendAndTrackMessage s c m o).1.addCalls = s.addCalls
    ∧ (sendAndTrackMessage s c m o).1.removeCalls = s.removeCalls
    ∧ (sendAndTrackMessage s c m o).1.connected = s.connected
    ∧ (sendAndTrackMessage s c m o).1.sent = s.sent ++ [(c, m)]
    ∧ (sendAndTrackMessage s c m o).1.errorLog = s.errorLog ++
        (match o with | Except.ok _ => [] | Except.error e => [sendTrackErrLog e]) := by
  cases o with
  | ok msgId =>
    unfold sendAndTrackMessage
    dsimp only
    split
    · unfold cleanupOldMessageIds
      exact ⟨rfl, rfl, rfl, rfl, rfl, rfl, by simp⟩
    · exact ⟨rfl, rfl, rfl, rfl, rfl, rfl, by simp⟩
  | error e =>
    unfold sendAndTrackMessage
    exact ⟨rfl, rfl, rfl, rfl, rfl, rfl, rfl⟩

theorem notifyBody_effects (fmtTime : Int → String) (outcomes : Nat → Except String Nat)
    (d : TxData) (w : String) (acc : BotState) (p : Nat × List String) :
    (notifyBody fmtTime outcomes d w acc p).userWallets = acc.userWallets
    ∧ (notifyBody fmtTime outcomes d w acc p).engine = acc.engine
    ∧ (notifyBody fmtTime outcomes d w acc p).addCalls = acc.addCalls
    ∧ (notifyBody fmtTime outcomes d w acc p).removeCalls = acc.removeCalls
    ∧ (notifyBody fmtTime outcomes d w acc p).sent = acc.sent ++
        (if w ∈ p.2 then [(p.1, formatTransactionMessage fmtTime acc.engine d)] else [])
    ∧ (notifyBody fmtTime outcomes d w acc p).errorLog = acc.errorLog ++
        (if w ∈ p.2 then
          (match outcomes p.1 with
            | Except.ok _ => []
            | Except.error e => [sendTrackErrLog e, notifyFailLog p.1 e])
        else []) := by
  unfold notifyBody
  by_cases hw : w ∈ p.2
  · simp only [if_pos hw]
    cases ho : outcomes p.1 with
    | ok k =>
      rw [show sendAndTrackMessage acc p.1 (formatTransactionMessage fmtTime acc.engine d)
            (Except.ok k)
          = ((sendAndTrackMessage acc p.1 (formatTransactionMessage fmtTime acc.engine d)
              (Except.ok k)).1, Except.ok ()) from rfl]
      dsimp only
      obtain ⟨e1, e2, e3, e4, _, e6, e7⟩ := sendATM_state_effects acc p.1
        (formatTransactionMessage fmtTime acc.engine d) (Except.ok k)
      exact ⟨e1, e2, e3, e4, e6, by rw [e7]⟩
    | error e =>
      rw [show sendAndTrackMessage acc p.1 (formatTransactionMessage fmtTime acc.engine d)
            (Except.error e)
          = ((sendAndTrackMessage acc p.1 (formatTransactionMessage fmtTime acc.engine d)
              (Except.error e)).1, Except.error e) from rfl]
      dsimp only
      obtain ⟨e1, e2, e3, e4, _, e6, e7⟩ := sendATM_state_effects acc p.1
        (formatTransactionMessage fmtTime acc.engine d) (Except.error e)
      refine ⟨e1, e2, e3, e4, e6, ?_⟩
      rw [e7]
      simp
  · simp [hw]

theorem notify_foldl_spec (fmtTime : Int → String) (outcomes : Nat → Except String Nat)
    (d : TxData) (w : String) :
    ∀ (l : List (Nat × List String)) (acc : BotState),
      (l.foldl (notifyBody fmtTime outcomes d w) acc).userWallets = acc.userWallets
      ∧ (l.foldl (notifyBody fmtTime outcomes d w) acc).engine = acc.engine
      ∧ (l.foldl (notifyBody fmtTime outcomes d w) acc).addCalls = acc.addCalls
      ∧ (l.foldl (notifyBody fmtTime outcomes d w) acc).removeCalls = acc.removeCalls
      ∧ (l.foldl (notifyBody fmtTime outcomes d w) acc).sent = acc.sent ++
          (l.filter (fun p => decide (w ∈ p.2))).map
            (fun p => (p.1, formatTransactionMessage fmtTime acc.engine d))
      ∧ (l.foldl (notifyBody fmtTime outcomes d w) acc).errorLog = acc.errorLog ++
          (l.filter (fun p => decide (w ∈ p.2))).flatMap
            (fun p => match outcomes p.1 with
              | Except.ok _ => []
              | Except.error e => [sendTrackErrLog e, notifyFailLog p.1 e]) := by
  intro l
  induction l with
  | nil => intro acc; simp
  | cons p rest ih =>
    intro acc
    rw [List.foldl_cons]
    obtain ⟨hu, he, ha, hr, hs, hl⟩ := ih (notifyBody fmtTime outcomes d w acc p)
    obtain ⟨bu, be, ba, br, bs, bl⟩ := notifyBody_effects fmtTime outcomes d w acc p
    refine ⟨hu.trans bu, he.trans be, ha.trans ba, hr.trans br, ?_, ?_⟩
    · rw [hs, bs]
      simp only [be]
      by_cases hw : w ∈ p.2
      · rw [if_pos hw, List.filter_cons_of_pos (by simpa using hw), List.map_cons]
        simp [List.append_assoc]
      · rw [if_neg hw, List.filter_cons_of_neg (by simpa using hw)]
        simp
    · rw [hl, bl]
      by_cases hw : w ∈ p.2
      · rw [if_pos hw, List.filter_cons_of_pos (by simpa using hw), List.flatMap_cons]
        simp [List.append_assoc]
      · rw [if_neg hw, List.filter_cons_of_neg (by simpa using hw)]
        simp

/-- C2: a record whose wallet field names a concrete wallet is delivered to
exactly the users whose set contains that wallet (in map order, with the
formatted message), and a record with an absent (falsy) or `'Unknown Wallet'`
wallet field is delivered to no user and leaves the whole state untouched. -/
theorem notifyUsers_exactly_trackers (fmtTime : Int → String) (s : BotState)
    (outcomes : Nat → Except String Nat) (d : TxData) (w : String)
    (hw : d.wallet = some w) (h1 : w ≠ "") (h2 : w ≠ "Unknown Wallet") :
    (notifyUsers fmtTime s outcomes d).sent
      = s.sent ++ (s.userWallets.filter (fun p => decide (w ∈ p.2))).map
          (fun p => (p.1, formatTransactionMessage fmtTime s.engine d))
    ∧ ∀ d2 : TxData,
        (d2.wallet = none ∨ d2.wallet = some "" ∨ d2.wallet = some "Unknown Wallet") →
        notifyUsers fmtTime s outcomes d2 = s := by
  constructor
  · unfold notifyUsers
    rw [hw]
    dsimp only
    rw [if_neg (not_or.mpr ⟨h1, h2⟩)]
    exact (notify_foldl_spec fmtTime outcomes d w s.userWallets s).2.2.2.2.1
  · intro d2 hd2
    unfold notifyUsers
    rcases hd2 with hd2 | hd2 | hd2 <;> rw [hd2] <;> simp

/-- Witness for C2: user 1 tracks wallet `A` and a record for `A` arrives. -/
theorem notifyUsers_exactly_trackers_witness :
    sampleTx.wallet = some "A"
    ∧ (notifyUsers fmtTime0 sampleState1 allOk sampleTx).sent
        = sampleState1.sent ++ (sampleState1.userWallets.filter
            (fun p => decide ("A" ∈ p.2))).map
            (fun p => (p.1, formatTransactionMessage fmtTime0 sampleState1.engine sampleTx)) := by
  have h := notifyUsers_exactly_trackers fmtTime0 sampleState1 allOk sampleTx "A" rfl
      (by decide) (by decide)
  exact ⟨rfl, h.1⟩

/-- C7: a failed send inside `notifyUsers` is caught and logged; the set of
users to whom a send is attempted does not depend on which sends fail, the
user-wallet map, the engine's tracked set and the `addWallet`/`removeWallet`
call logs are untouched, and `notifyUsers` always returns normally (it is a
total function into `BotState`). -/
theorem notify_send_failure_isolated (fmtTime : Int → String) (s : BotState)
    (outcomes outcomes2 : Nat → Except String Nat) (d : TxData) (w : String)
    (hw : d.wallet = some w) (h1 : w ≠ "") (h2 : w ≠ "Unknown Wallet") :
    (notifyUsers fmtTime s outcomes d).userWallets = s.userWallets
    ∧ (notifyUsers fmtTime s outcomes d).engine = s.engine
    ∧ (notifyUsers fmtTime s outcomes d).addCalls = s.addCalls
    ∧ (notifyUsers fmtTime s outcomes d).removeCalls = s.removeCalls
    ∧ (notifyUsers fmtTime s outcomes d).sent = (notifyUsers fmtTime s outcomes2 d).sent
    ∧ (notifyUsers fmtTime s outcomes d).errorLog = s.errorLog ++
        (s.userWallets.filter (fun p => decide (w ∈ p.2))).flatMap
          (fun p => match outcomes p.1 with
            | Except.ok _ => []
            | Except.error e => [sendTrackErrLog e, notifyFailLog p.1 e]) := by
  have hnu : ∀ oc : Nat → Except String Nat, notifyUsers fmtTime s oc d
      = s.userWallets.foldl (notifyBody fmtTime oc d w) s := by
    intro oc
    unfold notifyUsers
    rw [hw]
    dsimp only
    rw [if_neg (not_or.mpr ⟨h1, h2⟩)]
  have ha := notify_foldl_spec fmtTime outcomes d w s.userWallets s
  have hb := notify_foldl_spec fmtTime outcomes2 d w s.userWallets s
  rw [hnu outcomes, hnu outcomes2]
  refine ⟨ha.1, ha.2.1, ha.2.2.1, ha.2.2.2.1, ?_, ha.2.2.2.2.2⟩
  rw [ha.2.2.2.2.1, hb.2.2.2.2.1]

/-- Witness for C7: all sends fail versus all sends succeed at a concrete
state; the attempted sends coincide and the wallet map is untouched. -/
theorem notify_send_failure_isolated_witness :
    sampleTx.wallet = some "A"
    ∧ (notifyUsers fmtTime0 sampleState1 allFail sampleTx).userWallets
        = sampleState1.userWallets
    ∧ (notifyUsers fmtTime0 sampleState1 allFail sampleTx).sent
        = (notifyUsers fmtTime0 sampleState1 allOk sampleTx).sent := by
  have h := notify_send_failure_isolated fmtTime0 sampleState1 allFail allOk sampleTx "A" rfl
      (by decide) (by decide)
  exact ⟨rfl, h.1, h.2.2.2.2.1⟩

/-! ### C1: the engine's tracked set equals the union of the user sets -/

theorem keys_mapEntry {β : Type} (m : List (Nat × β)) (c : Nat) (v : β) :
    (mapEntry m c v).map Prod.fst = m.map Prod.fst := by
  unfold mapEntry
  rw [List.map_map]
  congr 1
  funext p
  dsimp only [Function.comp]
  split <;> rfl

theorem ne_entries_mapEntry (m : List (Nat × List String)) (c : Nat) (v : List String)
    (a : String) :
    (∃ p ∈ mapEntry m c v, p.1 ≠ c ∧ a ∈ p.2) ↔ ∃ p ∈ m, p.1 ≠ c ∧ a ∈ p.2 := by
  unfold mapEntry
  simp only [List.mem_map, exists_exists_and_eq_and]
  constructor
  · rintro ⟨p, hp, h1, h2⟩
    by_cases hc : p.1 = c
    · rw [if_pos hc] at h1 h2
      exact absurd hc h1
    · rw [if_neg hc] at h1 h2
      exact ⟨p, hp, h1, h2⟩
  · rintro ⟨p, hp, h1, h2⟩
    refine ⟨p, hp, ?_⟩
    rw [if_neg h1]
    exact ⟨h1, h2⟩

theorem union_ensureEntry (m : List (Nat × List String)) (c : Nat) (w : String) :
    (∃ p ∈ ensureEntry m c, w ∈ p.2) ↔ ∃ p ∈ m, w ∈ p.2 := by
  unfold ensureEntry
  split
  · exact Iff.rfl
  · constructor
    · rintro ⟨p, hp, hw⟩
      rcases List.mem_append.mp hp with hp | hp
      · exact ⟨p, hp, hw⟩
      · rw [List.mem_singleton] at hp
        subst hp
        exact absurd hw (List.not_mem_nil w)
    · rintro ⟨p, hp, hw⟩
      exact ⟨p, List.mem_append_left _ hp, hw⟩

theorem keys_ensureEntry (m : List (Nat × List String)) (c : Nat)
    (h : (m.map Prod.fst).Nodup) : ((ensureEntry m c).map Prod.fst).Nodup := by
  unfold ensureEntry
  split
  · exact h
  · rename_i hk
    rw [List.map_append]
    rw [List.nodup_append]
    refine ⟨h, List.nodup_singleton _, ?_⟩
    intro x hx hx2
    simp only [List.map_cons, List.map_nil, List.mem_singleton] at hx2
    subst hx2
    rw [List.mem_map] at hx
    obtain ⟨p, hp, hpc⟩ := hx
    exact hk ⟨p, hp, hpc⟩

theorem hasKey_ensureEntry (m : List (Nat × List String)) (c : Nat) :
    ∃ p ∈ ensureEntry m c, p.1 = c := by
  unfold ensureEntry
  split
  · assumption
  · exact ⟨(c, []), List.mem_append_right _ (List.mem_singleton_self _), rfl⟩

theorem exists_of_mem_getEntry {w : String} (m : List (Nat × List String)) (c : Nat)
    (h : w ∈ getEntry [] m c) : ∃ p ∈ m, p.1 = c ∧ w ∈ p.2 := by
  induction m with
  | nil => exact absurd h (List.not_mem_nil w)
  | cons p rest ih =>
    rw [getEntry_cons] at h
    by_cases hp : p.1 = c
    · rw [if_pos hp] at h
      exact ⟨p, List.mem_cons_self _ _, hp, h⟩
    · rw [if_neg hp] at h
      obtain ⟨q, hq, hqc, hw⟩ := ih h
      exact ⟨q, List.mem_cons_of_mem _ hq, hqc, hw⟩

theorem union_split (m : List (Nat × List String)) (c : Nat) (w : String)
    (hnd : (m.map Prod.fst).Nodup) :
    (∃ p ∈ m, w ∈ p.2) ↔ (∃ p ∈ m, p.1 ≠ c ∧ w ∈ p.2) ∨ w ∈ getEntry [] m c := by
  induction m with
  | nil => simp [getEntry]
  | cons p rest ih =>
    rw [List.map_cons, List.nodup_cons] at hnd
    obtain ⟨hp1, hnd2⟩ := hnd
    rw [getEntry_cons]
    by_cases hp : p.1 = c
    · rw [if_pos hp]
      have hrest : ∀ q ∈ rest, q.1 ≠ c := by
        intro q hq hqc
        exact hp1 (by rw [hp, ← hqc]; exact List.mem_map_of_mem Prod.fst hq)
      constructor
      · rintro ⟨q, hq, hw⟩
        rcases List.mem_cons.mp hq with rfl | hq
        · exact Or.inr hw
        · exact Or.inl ⟨q, List.mem_cons_of_mem _ hq, hrest q hq, hw⟩
      · rintro (⟨q, hq, _, hw⟩ | hw)
        · exact ⟨q, hq, hw⟩
        · exact ⟨p, List.mem_cons_self _ _, hw⟩
    · rw [if_neg hp]
      constructor
      · rintro ⟨q, hq, hw⟩
        rcases List.mem_cons.mp hq with rfl | hq
        · exact Or.inl ⟨q, List.mem_cons_self _ _, hp, hw⟩
        · rcases (ih hnd2).mp ⟨q, hq, hw⟩ with ⟨q2, hq2, h2⟩ | hw2
          · exact Or.inl ⟨q2, List.mem_cons_of_mem _ hq2, h2⟩
          · exact Or.inr hw2
      · rintro (⟨q, hq, _, hw⟩ | hw)
        · exact ⟨q, hq, hw⟩
        · rcases (ih hnd2).mpr (Or.inr hw) with ⟨q, hq, hw2⟩
          exact ⟨q, List.mem_cons_of_mem _ hq, hw2⟩

theorem union_mapEntry (m : List (Nat × List String)) (c : Nat) (v : List String) (w : String)
    (hnd : (m.map Prod.fst).Nodup) (hk : ∃ p ∈ m, p.1 = c) :
    (∃ p ∈ mapEntry m c v, w ∈ p.2) ↔ (∃ p ∈ m, p.1 ≠ c ∧ w ∈ p.2) ∨ w ∈ v := by
  have hnd2 : ((mapEntry m c v).map Prod.fst).Nodup := by
    rw [keys_mapEntry]; exact hnd
  rw [union_split (mapEntry m c v) c w hnd2]
  rw [ne_entries_mapEntry]
  rw [getEntry_mapEntry _ _ _ _ hk]

theorem trackCmd_preserves (v : String → Bool) (maxW : Nat) (s : BotState) (c : Nat)
    (a : String) (hnd : keysNodup s) (hu : unionInv s) :
    keysNodup (trackCmd v maxW s c a) ∧ unionInv (trackCmd v maxW s c a) := by
  unfold keysNodup unionInv at *
  unfold trackCmd
  by_cases hv : v a
  · rw [if_pos hv]
    dsimp only
    split
    · exact ⟨keys_ensureEntry _ _ hnd, fun w => (hu w).trans (union_ensureEntry _ _ _).symm⟩
    · split
      · exact ⟨keys_ensureEntry _ _ hnd, fun w => (hu w).trans (union_ensureEntry _ _ _).symm⟩
      · refine ⟨?_, ?_⟩
        · show ((mapEntry (ensureEntry s.userWallets c) c _).map Prod.fst).Nodup
          rw [keys_mapEntry]
          exact keys_ensureEntry _ _ hnd
        · intro w
          show w ∈ addElem s.engine a ↔ _
          rw [mem_addElem]
          rw [union_mapEntry _ _ _ _ (keys_ensureEntry _ _ hnd) (hasKey_ensureEntry _ _)]
          rw [List.mem_append, List.mem_singleton]
          have hsplit := union_split (ensureEntry s.userWallets c) c w
            (keys_ensureEntry _ _ hnd)
          have hens := union_ensureEntry s.userWallets c w
          have hw := hu w
          constructor
          · rintro (rfl | hweng)
            · exact Or.inr (Or.inr rfl)
            · rcases hsplit.mp (hens.mpr (hw.mp hweng)) with h | h
              · exact Or.inl h
              · exact Or.inr (Or.inl h)
          · rintro (h | h | rfl)
            · exact Or.inr (hw.mpr (hens.mp (hsplit.mpr (Or.inl h))))
            · exact Or.inr (hw.mpr (hens.mp (hsplit.mpr (Or.inr h))))
            · exact Or.inl rfl
  · rw [if_neg hv]
    exact ⟨hnd, hu⟩

theorem untrackCmd_preserves (s : BotState) (c : Nat) (a : String)
    (hnd : keysNodup s) (hu : unionInv s) :
    keysNodup (untrackCmd s c a) ∧ unionInv (untrackCmd s c a) := by
  unfold keysNodup unionInv at *
  unfold untrackCmd
  split
  · rename_i hk
    dsimp only
    split
    · rename_i ha
      have hset := exists_of_mem_getEntry s.userWallets c ha
      have haeng : a ∈ s.engine := by
        obtain ⟨p, hp, _, hap⟩ := hset
        exact (hu a).mpr ⟨p, hp, hap⟩
      split
      · rename_i hothers
        refine ⟨?_, ?_⟩
        · show ((mapEntry s.userWallets c _).map Prod.fst).Nodup
          rw [keys_mapEntry]
          exact hnd
        · intro w
          show w ∈ s.engine ↔ _
          rw [union_mapEntry _ _ _ _ hnd hk]
          rw [mem_removeElem]
          have hsplit := union_split s.userWallets c w hnd
          have hw := hu w
          by_cases hwa : w = a
          · subst hwa
            have hothers2 := (ne_entries_mapEntry s.userWallets c _ w).mp hothers
            exact iff_of_true haeng (Or.inl hothers2)
          · constructor
            · intro hweng
              rcases hsplit.mp (hw.mp hweng) with h | h
              · exact Or.inl h
              · exact Or.inr ⟨h, hwa⟩
            · rintro (h | ⟨h, _⟩)
              · exact hw.mpr (hsplit.mpr (Or.inl h))
              · exact hw.mpr (hsplit.mpr (Or.inr h))
      · rename_i hothers
        refine ⟨?_, ?_⟩
        · show ((mapEntry s.userWallets c _).map Prod.fst).Nodup
          rw [keys_mapEntry]
          exact hnd
        · intro w
          show w ∈ removeElem s.engine a ↔ _
          rw [mem_removeElem]
          rw [union_mapEntry _ _ _ _ hnd hk]
          rw [mem_removeElem]
          have hsplit := union_split s.userWallets c w hnd
          have hw := hu w
          by_cases hwa : w = a
          · subst hwa
            have hothers2 : ¬ ∃ p ∈ s.userWallets, p.1 ≠ c ∧ w ∈ p.2 :=
              fun hx => hothers ((ne_entries_mapEntry s.userWallets c _ w).mpr hx)
            constructor
            · rintro ⟨_, hne⟩
              exact absurd rfl hne
            · rintro (h | ⟨_, hne⟩)
              · exact absurd h hothers2
              · exact absurd rfl hne
          · constructor
            · rintro ⟨hweng, _⟩
              rcases hsplit.mp (hw.mp hweng) with h | h
              · exact Or.inl h
              · exact Or.inr ⟨h, hwa⟩
            · rintro (h | ⟨h, _⟩)
              · exact ⟨hw.mpr (hsplit.mpr (Or.inl h)), hwa⟩
              · exact ⟨hw.mpr (hsplit.mpr (Or.inr h)), hwa⟩
    · exact ⟨hnd, hu⟩
  · exact ⟨hnd, hu⟩

theorem cleanup_preserves (limitMs : Nat) (s : BotState) (hnd : keysNodup s)
    (hu : unionInv s) :
    keysNodup (handleInactivityCleanup limitMs s)
    ∧ unionInv (handleInactivityCleanup limitMs s) := by
  unfold keysNodup unionInv at *
  unfold handleInactivityCleanup
  dsimp only
  refine ⟨by simp, ?_⟩
  intro w
  rw [mem_foldl_removeElem]
  have hmem := mem_collectWallets s.userWallets [] w
  simp only [List.not_mem_nil, false_or] at hmem
  constructor
  · rintro ⟨hw, hnw⟩
    exact absurd (hmem.mpr ((hu w).mp hw)) hnw
  · rintro ⟨p, hp, _⟩
    exact absurd hp (List.not_mem_nil p)

theorem step_preserves (v : String → Bool) (maxW limitMs : Nat) (s : BotState) (e : Ev)
    (hnd : keysNodup s) (hu : unionInv s) :
    keysNodup (step v maxW limitMs s e) ∧ unionInv (step v maxW limitMs s e) := by
  cases e with
  | track c a => exact trackCmd_preserves v maxW s c a hnd hu
  | untrack c a => exact untrackCmd_preserves s c a hnd hu
  | inactivityCleanup => exact cleanup_preserves limitMs s hnd hu
  | notify f o d =>
    show keysNodup (notifyUsers f s o d) ∧ unionInv (notifyUsers f s o d)
    unfold notifyUsers
    cases hd : d.wallet with
    | none => exact ⟨hnd, hu⟩
    | some w =>
      dsimp only
      split
      · exact ⟨hnd, hu⟩
      · have h := notify_foldl_spec f o d w s.userWallets s
        unfold keysNodup unionInv at *
        constructor
        · rw [h.1]
          exact hnd
        · intro w2
          rw [h.2.1, h.1]
          exact hu w2
  | send c m o =>
    show keysNodup ((sendAndTrackMessage s c m o).1)
        ∧ unionInv ((sendAndTrackMessage s c m o).1)
    obtain ⟨e1, e2, _⟩ := sendATM_state_effects s c m o
    unfold keysNodup unionInv at *
    rw [e1, e2]
    exact ⟨hnd, hu⟩

theorem runEvents_inv (v : String → Bool) (maxW limitMs : Nat) (es : List Ev) :
    keysNodup (runEvents v maxW limitMs es) ∧ unionInv (runEvents v maxW limitMs es) := by
  suffices h : ∀ s : BotState, keysNodup s → unionInv s →
      keysNodup (es.foldl (step v maxW limitMs) s)
      ∧ unionInv (es.foldl (step v maxW limitMs) s) by
    refine h initState ?_ ?_
    · unfold keysNodup initState
      simp
    · unfold unionInv initState
      intro w
      simp
  induction es with
  | nil => exact fun s h1 h2 => ⟨h1, h2⟩
  | cons e rest ih =>
    intro s h1 h2
    rw [List.foldl_cons]
    obtain ⟨g1, g2⟩ := step_preserves v maxW limitMs s e h1 h2
    exact ih _ g1 g2

/-- C1: after any sequence of operations from the initial state, the engine's
tracked set is exactly the union of the per-user wallet sets; and for any state
satisfying that invariant, `/untrack` on a wallet the requesting user holds
removes it from the engine if and only if, after deleting it from the
requester's set, no other user's set still contains it. -/
theorem trackedSet_eq_union (v : String → Bool) (maxW limitMs : Nat) (es : List Ev) :
    (∀ w, w ∈ (runEvents v maxW limitMs es).engine
        ↔ ∃ p ∈ (runEvents v maxW limitMs es).userWallets, w ∈ p.2)
    ∧ ∀ (s : BotState) (c : Nat) (a : String),
        (∀ w, w ∈ s.engine ↔ ∃ p ∈ s.userWallets, w ∈ p.2) →
        a ∈ getEntry [] s.userWallets c →
        (a ∉ (untrackCmd s c a).engine ↔
          ¬ ∃ p ∈ (untrackCmd s c a).userWallets, p.1 ≠ c ∧ a ∈ p.2) := by
  constructor
  · exact (runEvents_inv v maxW limitMs es).2
  · intro s c a hu ha
    have hk : ∃ p ∈ s.userWallets, p.1 = c := by
      obtain ⟨p, hp, hpc, _⟩ := exists_of_mem_getEntry s.userWallets c ha
      exact ⟨p, hp, hpc⟩
    have haeng : a ∈ s.engine := by
      obtain ⟨p, hp, _, hap⟩ := exists_of_mem_getEntry s.userWallets c ha
      exact (hu a).mpr ⟨p, hp, hap⟩
    unfold untrackCmd
    rw [if_pos hk]
    dsimp only
    rw [if_pos ha]
    split
    · rename_i hothers
      dsimp only
      exact iff_of_false (fun hne => hne haeng) (fun hno => hno hothers)
    · rename_i hothers
      dsimp only
      refine iff_of_true ?_ hothers
      rw [mem_removeElem]
      rintro ⟨_, hne⟩
      exact hne rfl

/-- Witness for C1: two users track wallet `A`; after user 1 untracks it the
engine keeps it exactly because user 2 still tracks it. -/
theorem trackedSet_eq_union_witness :
    "A" ∈ getEntry []
        (runEvents acceptAll 3 300000 [Ev.track 1 "A", Ev.track 2 "A"]).userWallets 1
    ∧ ("A" ∉ (untrackCmd (runEvents acceptAll 3 300000 [Ev.track 1 "A", Ev.track 2 "A"])
          1 "A").engine ↔
        ¬ ∃ p ∈ (untrackCmd (runEvents acceptAll 3 300000 [Ev.track 1 "A", Ev.track 2 "A"])
            1 "A").userWallets, p.1 ≠ 1 ∧ "A" ∈ p.2) := by
  refine ⟨by decide, ?_⟩
  exact (trackedSet_eq_union acceptAll 3 300000 [Ev.track 1 "A", Ev.track 2 "A"]).2
    (runEvents acceptAll 3 300000 [Ev.track 1 "A", Ev.track 2 "A"]) 1 "A"
    (trackedSet_eq_union acceptAll 3 300000 [Ev.track 1 "A", Ev.track 2 "A"]).1
    (by decide)

end VoltsTracker
